import Mathlib

/-!
Verification of the FAQ chat-bot server (`src/server.js`, active implementation:
the variant spanning lines 145-368) against its natural-language specification.

The JavaScript source is shallowly embedded below.  External collaborators that
the source calls but whose code is not part of this repository (the `natural`
TF-IDF index, the `fuse.js` fuzzy index, the WordNet lexical database, and the
file system) are represented as explicit function/value parameters, so every
theorem quantifies over their possible behaviours.  Floating point scores are
modelled by exact rationals.  JavaScript strings are modelled by Lean strings;
Unicode case folding is modelled on the ASCII range (every concrete input used
in a witness or counterexample below is pure ASCII, where the two coincide).
-/

namespace BBLChat

/-! ## Character-level helpers for the JS string operations used by the source -/

/-- ASCII case folding, modelling `String.prototype.toLowerCase` on the
character ranges relevant to the source (see the module comment). -/
def jsToLower (c : Char) : Char :=
  if 'A' ≤ c ∧ c ≤ 'Z' then Char.ofNat (c.toNat + 32) else c

/-- Whitespace class of the JS regex `\s` (ASCII part). -/
def jsWS (c : Char) : Bool :=
  c == ' ' || c == '\t' || c == '\n' || c == '\x0b' || c == '\x0c' || c == '\r'

/-- Lower-case ASCII letter, the `a-z` range of the source regexes. -/
def isLowerAZ (c : Char) : Bool := 'a' ≤ c && c ≤ 'z'

/-- ASCII digit, the `0-9` range of the source regexes. -/
def isDigit09 (c : Char) : Bool := '0' ≤ c && c ≤ '9'

/-- The Bengali Unicode block `ঀ-৿` allowed by `preprocess`. -/
def isBangla (c : Char) : Bool := 'ঀ' ≤ c && c ≤ '৿'

/-- Character class kept (not replaced by a space) by the cleaning regex
`[^a-zঀ-৿0-9\s]` of `preprocess` (source line 207). -/
def keepChar (c : Char) : Bool := isLowerAZ c || isBangla c || isDigit09 c || jsWS c

/-- JS `String.prototype.trim`: strip whitespace from both ends. -/
def jsTrim (s : String) : String :=
  String.mk (((s.toList.dropWhile jsWS).reverse.dropWhile jsWS).reverse)

/-- Exact subtraction on the rational score model (equal to `Sub.sub` on `ℚ`,
see `ratSub_eq`; stated this way so that concrete scores evaluate). -/
def ratSub (a b : ℚ) : ℚ := mkRat (a.num * b.den - b.num * a.den) (a.den * b.den)

/-- `Math.abs` on the rational score model (equal to `|q|`, see `ratAbs_eq`). -/
def ratAbs (q : ℚ) : ℚ := if q < 0 then -q else q

/-- Split a character list at every character satisfying `p`, keeping empty
segments, as `String.prototype.split` does before `filter(Boolean)`. -/
def splitSep (p : Char → Bool) : List Char → List (List Char)
  | [] => [[]]
  | c :: cs =>
    match splitSep p cs with
    | [] => [[c]]
    | t :: ts => if p c then [] :: t :: ts else (c :: t) :: ts

/-- Tokens of a character list: `split(/\s+/).filter(Boolean)` in the source,
generalised over the separator class. -/
def toksOf (p : Char → Bool) (cs : List Char) : List (List Char) :=
  (splitSep p cs).filter (fun t => t ≠ [])

/-- Join token lists with a single separator character, modelling
`Array.prototype.join(" ")`. -/
def joinSep (sep : Char) : List (List Char) → List Char
  | [] => []
  | [t] => t
  | t :: t2 :: ts => t ++ sep :: joinSep sep (t2 :: ts)

/-! ## The Porter stemmer and the stopword list

The source calls `natural.PorterStemmer.stem` and `natural.stopwords`; the
`natural` library is an external collaborator whose code is not in this
repository. -/

/-- Vowel letters of the Porter algorithm. -/
def isVowelChar (c : Char) : Bool :=
  c == 'a' || c == 'e' || c == 'i' || c == 'o' || c == 'u'

/-- Position `i` of word `w` holds a consonant in the sense of Porter (1980):
a letter other than a, e, i, o, u, and other than a `y` preceded by a
consonant. -/
def consAt (w : List Char) : Nat → Bool
  | 0 => !(isVowelChar (w.getD 0 ' '))
  | j + 1 =>
    let c := w.getD (j + 1) ' '
    if isVowelChar c then false
    else if c == 'y' then !(consAt w j)
    else true

/-- The measure `m` of a word, the number of vowel-to-consonant transitions
(the word has the form `[C](VC)^m[V]`). -/
def mMeasure (w : List Char) : Nat :=
  ((List.range w.length).filter (fun i =>
    match i with
    | 0 => false
    | j + 1 => consAt w (j + 1) && !(consAt w j))).length

/-- The word contains a vowel (`*v*` condition of Porter). -/
def hasVowel (w : List Char) : Bool :=
  (List.range w.length).any (fun i => !(consAt w i))

/-- Last character of a word (blank default, only used on nonempty words). -/
def lastCh (w : List Char) : Char := w.getD (w.length - 1) ' '

/-- The word ends in a double consonant (`*d` condition of Porter). -/
def endsDoubleCons (w : List Char) : Bool :=
  decide (2 ≤ w.length) && (w.getD (w.length - 1) ' ' == w.getD (w.length - 2) ' ')
    && consAt w (w.length - 1)

/-- The word ends consonant-vowel-consonant where the final consonant is not
w, x or y (`*o` condition of Porter). -/
def endsCVC (w : List Char) : Bool :=
  decide (3 ≤ w.length) && consAt w (w.length - 3) && !(consAt w (w.length - 2))
    && consAt w (w.length - 1) && !(lastCh w == 'w' || lastCh w == 'x' || lastCh w == 'y')

/-- The word ends with the given suffix. -/
def hasSuffix (w : List Char) (s : String) : Bool := s.toList.isSuffixOf w

/-- The word with the given suffix removed. -/
def chopSuffix (w : List Char) (s : String) : List Char := w.take (w.length - s.length)

/-- Rule condition that always holds. -/
def condTrue : List Char → Bool := fun _ => true

/-- Rule condition `m > 0` on the stem. -/
def condM0 : List Char → Bool := fun st => decide (0 < mMeasure st)

/-- Rule condition `m > 1` on the stem. -/
def condM1 : List Char → Bool := fun st => decide (1 < mMeasure st)

/-- Rule condition `m > 1` and the stem ends in `s` or `t` (for `ION`). -/
def condM1ST : List Char → Bool := fun st =>
  decide (1 < mMeasure st) && (lastCh st == 's' || lastCh st == 't')

/-- Apply the first rule `(suffix, condition, replacement)` whose suffix
matches; if its condition fails on the stem the whole step fails, as in
Porter.  Rule lists below order conflicting suffixes longest first, so the
first match is the longest match. -/
def tryRules (w : List Char) : List (String × (List Char → Bool) × String) → List Char
  | [] => w
  | (suf, cond, repl) :: rest =>
    if hasSuffix w suf then
      (if cond (chopSuffix w suf) then chopSuffix w suf ++ repl.toList else w)
    else tryRules w rest

/-- Porter step 1a: plural removal. -/
def step1a (w : List Char) : List Char :=
  tryRules w
    [("sses", condTrue, "ss"), ("ies", condTrue, "i"), ("ss", condTrue, "ss"),
     ("s", condTrue, "")]

/-- Porter step 1b clean-up applied after removing `ed` or `ing`. -/
def step1bExtra (st : List Char) : List Char :=
  if hasSuffix st "at" || hasSuffix st "bl" || hasSuffix st "iz" then st ++ ['e']
  else if endsDoubleCons st && !(lastCh st == 'l' || lastCh st == 's' || lastCh st == 'z') then
    st.dropLast
  else if mMeasure st == 1 && endsCVC st then st ++ ['e']
  else st

/-- Porter step 1b: past tense and progressive endings. -/
def step1b (w : List Char) : List Char :=
  if hasSuffix w "eed" then
    (if condM0 (chopSuffix w "eed") then chopSuffix w "eed" ++ ['e', 'e'] else w)
  else if hasSuffix w "ed" && hasVowel (chopSuffix w "ed") then step1bExtra (chopSuffix w "ed")
  else if hasSuffix w "ing" && hasVowel (chopSuffix w "ing") then step1bExtra (chopSuffix w "ing")
  else w

/-- Porter step 1c: terminal `y` to `i` when the stem contains a vowel. -/
def step1c (w : List Char) : List Char :=
  if hasSuffix w "y" && hasVowel (chopSuffix w "y") then chopSuffix w "y" ++ ['i'] else w

/-- Porter step 2: double and triple suffixes. -/
def step2 (w : List Char) : List Char :=
  tryRules w
    [("ational", condM0, "ate"), ("tional", condM0, "tion"), ("enci", condM0, "ence"),
     ("anci", condM0, "ance"), ("izer", condM0, "ize"), ("abli", condM0, "able"),
     ("alli", condM0, "al"), ("entli", condM0, "ent"), ("eli", condM0, "e"),
     ("ousli", condM0, "ous"), ("ization", condM0, "ize"), ("ation", condM0, "ate"),
     ("ator", condM0, "ate"), ("alism", condM0, "al"), ("iveness", condM0, "ive"),
     ("fulness", condM0, "ful"), ("ousness", condM0, "ous"), ("aliti", condM0, "al"),
     ("iviti", condM0, "ive"), ("biliti", condM0, "ble")]

/-- Porter step 3. -/
def step3 (w : List Char) : List Char :=
  tryRules w
    [("icate", condM0, "ic"), ("ative", condM0, ""), ("alize", condM0, "al"),
     ("iciti", condM0, "ic"), ("ical", condM0, "ic"), ("ful", condM0, ""),
     ("ness", condM0, "")]

/-- Porter step 4: single suffixes, removed when `m > 1`. -/
def step4 (w : List Char) : List Char :=
  tryRules w
    [("al", condM1, ""), ("ance", condM1, ""), ("ence", condM1, ""), ("er", condM1, ""),
     ("ic", condM1, ""), ("able", condM1, ""), ("ible", condM1, ""), ("ant", condM1, ""),
     ("ement", condM1, ""), ("ment", condM1, ""), ("ent", condM1, ""), ("ion", condM1ST, ""),
     ("ou", condM1, ""), ("ism", condM1, ""), ("ate", condM1, ""), ("iti", condM1, ""),
     ("ous", condM1, ""), ("ive", condM1, ""), ("ize", condM1, "")]

/-- Porter step 5a: terminal `e` removal. -/
def step5a (w : List Char) : List Char :=
  if hasSuffix w "e" then
    (let st := w.dropLast
     if condM1 st then st
     else if mMeasure st == 1 && !(endsCVC st) then st
     else w)
  else w

/-- Porter step 5b: `ll` to `l` when `m > 1`. -/
def step5b (w : List Char) : List Char :=
  if condM1 w && endsDoubleCons w && lastCh w == 'l' then w.dropLast else w

/-- Modelled from the spec: the morphological stemmer used by the Normalizer
(section 4.1: "replace it with its morphological stem").  The source names
`natural.PorterStemmer`, an external library; this is the standard Porter
(1980) stemming algorithm, with words shorter than three letters returned
unchanged. -/
def porterStem (w : List Char) : List Char :=
  if w.length < 3 then w
  else step5b (step5a (step4 (step3 (step2 (step1c (step1b (step1a w)))))))

/-- Modelled from the spec: the English stopword list consulted by the
Normalizer (section 4.1: "drop it if it is a stopword in the supported
language").  The source uses `natural.stopwords`, the English stopword list of
the external `natural` library. -/
def STOPWORDS : List String :=
  ["about", "after", "all", "also", "am", "an", "and", "another", "any", "are", "as", "at",
   "be", "because", "been", "before", "being", "between", "both", "but", "by", "came", "can",
   "come", "could", "did", "do", "does", "each", "else", "for", "from", "get", "got", "has",
   "had", "he", "have", "her", "here", "him", "himself", "his", "how", "if", "in", "into",
   "is", "it", "its", "just", "like", "make", "many", "me", "might", "more", "most", "much",
   "must", "my", "never", "no", "now", "of", "on", "only", "or", "other", "our", "out",
   "over", "re", "said", "same", "see", "should", "since", "so", "some", "still", "such",
   "take", "than", "that", "the", "their", "them", "then", "there", "these", "they", "this",
   "those", "through", "to", "too", "under", "up", "use", "very", "want", "was", "way", "we",
   "well", "were", "what", "when", "where", "which", "while", "who", "will", "with", "would",
   "you", "your", "a", "b", "c", "d", "e", "f", "g", "h", "i", "j", "k", "l", "m", "n", "o",
   "p", "q", "r", "s", "t", "u", "v", "w", "x", "y", "z"]

/-- The stopword list as character lists, for token comparison. -/
def stopwordsL : List (List Char) := STOPWORDS.map String.toList

/-! ## The Normalizer: `preprocess` (source lines 203-221) -/

/-- Token transform of `preprocess`: a token containing an ASCII letter is
dropped if it is a stopword and stemmed otherwise; other-script tokens pass
through unchanged (source lines 210-218). -/
def mapToken (t : List Char) : List Char :=
  if t.any isLowerAZ then (if t ∈ stopwordsL then [] else porterStem t) else t

/-- The token sequence produced by `preprocess` before the final join:
lower-case, replace disallowed characters by spaces, split on whitespace,
drop empties, transform each token, drop emptied tokens. -/
def processedTokens (text : String) : List (List Char) :=
  List.filter (fun t => t ≠ [])
    (List.map mapToken
      (toksOf jsWS
        (List.map (fun c => if keepChar c then c else ' ') (List.map jsToLower text.toList))))

/-- The Normalizer `preprocess` (source lines 203-221).  `NFC` normalisation
is the identity on the already-composed character data modelled here. -/
def preprocess (text : String) : String :=
  if text = "" then "" else String.mk (joinSep ' ' (processedTokens text))

/-- A character is normalisation-stable: fixed by lower-casing, inside the
allowed class of the cleaning regex, and not whitespace.  Tokens made of such
characters pass the character-level stages of `preprocess` unchanged. -/
def cleanTokenChar (c : Char) : Bool :=
  (jsToLower c == c) && keepChar c && !(jsWS c)

/-! ## The Synonym Expander: `expandQuery` (source lines 225-250) -/

/-- One WordNet lookup result; only its `synonyms` array is consumed. -/
structure SynResult where
  synonyms : List String
deriving DecidableEq

/-- ASCII-letter word extraction of `expandQuery` (source lines 228-232):
lower-case, replace everything outside `[a-z\s]` by spaces, split on
whitespace, drop empties. -/
def extractWords (rawQuery : String) : List String :=
  ((toksOf jsWS ((rawQuery.toList.map jsToLower).map
      (fun c => if isLowerAZ c || jsWS c then c else ' ')))).map String.mk

/-- Insertion into the accumulating `Set` (JS sets preserve first-seen
insertion order). -/
def addWord (acc : List String) (w : String) : List String :=
  if w ∈ acc then acc else acc ++ [w]

/-- ASCII lower-casing of a whole string (`toLowerCase`). -/
def lowerS (s : String) : String := String.mk (s.toList.map jsToLower)

/-- JS `s.includes(" ")`: the string contains a space character. -/
def hasSpace (s : String) : Bool := s.toList.contains ' '

/-- The body of the innermost `forEach`: add a synonym unless it contains a
space, lower-casing it (source line 241). -/
def addSyn (acc : List String) (s : String) : List String :=
  if hasSpace s then acc else addWord acc (lowerS s)

/-- The middle `forEach`: fold the synonym array of one lookup result. -/
def addSynResult (acc : List String) (r : SynResult) : List String :=
  r.synonyms.foldl addSyn acc

/-- The `wordnet.lookup` callback: fold all results for one word. -/
def addWordSyns (lookup : String → List SynResult) (acc : List String) (word : String) :
    List String :=
  (lookup word).foldl addSynResult acc

/-- The word sequence accumulated by `expandQuery` (source lines 234-247):
the extracted words, then every space-free synonym (lower-cased) returned by
the lexical lookup, in first-seen order.  The WordNet database is the
external parameter `lookup`. -/
def expandQueryWords (lookup : String → List SynResult) (query : String) : List String :=
  if query = "" then []
  else
    let words := extractWords query
    words.foldl (addWordSyns lookup) (words.foldl addWord [])

/-- `expandQuery` (source lines 225-250): the accumulated set joined by
spaces. -/
def expandQuery (lookup : String → List SynResult) (query : String) : String :=
  String.intercalate " " (expandQueryWords lookup query)

/-! ## Data model -/

/-- One FAQ entry `{q, a}` as parsed from the corpus. -/
structure Faq where
  q : String
  a : String
deriving DecidableEq

/-- One TF-IDF score callback datum `{index, score}` (source lines 263-266). -/
structure ScoreEntry where
  index : Nat
  score : ℚ
deriving DecidableEq

/-- One `fuse.search` result: the matched entry and its similarity score
(0 best, 1 worst). -/
structure FuseResult where
  item : Faq
  score : ℚ
deriving DecidableEq

/-- The `{answer, suggestions}` value returned to the caller. -/
structure QueryResult where
  answer : Option String
  suggestions : List String
deriving DecidableEq

/-- Default entry used to totalise JS array indexing `faqs[i]`; every use in
the source has `i` inside the corpus. -/
def defaultFaq : Faq := ⟨"", ""⟩

/-! ## Decision thresholds (source lines 273-275, 302, 307) -/

/-- `TFIDF_STRONG = 0.3`. -/
def TFIDF_STRONG : ℚ := mkRat 3 10

/-- `TFIDF_WEAK = 0.2`. -/
def TFIDF_WEAK : ℚ := mkRat 2 10

/-- `TFIDF_SCORE_GAP = 0.08`. -/
def TFIDF_SCORE_GAP : ℚ := mkRat 8 100

/-- `FUSE_ACCEPT_THRESHOLD = 0.3`. -/
def FUSE_ACCEPT_THRESHOLD : ℚ := mkRat 3 10

/-- The ambiguity epsilon `0.05` (literal at source line 307). -/
def FUSE_AMBIGUITY_EPS : ℚ := mkRat 5 100

/-! ## The Decision Engine: `findAnswers` (source lines 254-319) -/

/-- Descending order on score entries.  `scores.sort((a, b) => b.score -
a.score)` is a stable descending sort; `List.insertionSort` with this
relation has exactly that behaviour. -/
def ScoreGE (a b : ScoreEntry) : Prop := b.score ≤ a.score

instance : DecidableRel ScoreGE := fun a b => inferInstanceAs (Decidable (b.score ≤ a.score))

instance : IsTotal ScoreEntry ScoreGE := ⟨fun a b => le_total b.score a.score⟩

instance : IsTrans ScoreEntry ScoreGE := ⟨fun _ _ _ hab hbc => le_trans hbc hab⟩

/-- The stable descending sort of the score list (source line 268). -/
def sortDesc (l : List ScoreEntry) : List ScoreEntry := List.insertionSort ScoreGE l

/-- The fuzzy fallback of `findAnswers` (source lines 297-318), applied to
the output of `fuse.search(userQuestion, {limit: k})`. -/
def fuzzyFallback (fuseResults : List FuseResult) : QueryResult :=
  let suggestions := fuseResults.map (fun r => r.item.q)
  match fuseResults with
  | [] => { answer := none, suggestions := suggestions }
  | r0 :: rest =>
    if r0.score ≤ FUSE_ACCEPT_THRESHOLD then
      match rest with
      | r1 :: _ =>
        if ratAbs (ratSub r0.score r1.score) < FUSE_AMBIGUITY_EPS then
          { answer := none, suggestions := suggestions }
        else { answer := some r0.item.a, suggestions := suggestions }
      | [] => { answer := some r0.item.a, suggestions := suggestions }
    else { answer := none, suggestions := suggestions }

/-- The gap used by the confidence test (source line 280): distance of the
top score to the second best, or the top score itself when there is no
second result (`second ? top.score - second.score : top.score`). -/
def gapOf (top : ScoreEntry) (rest : List ScoreEntry) : ℚ :=
  match rest with
  | second :: _ => ratSub top.score second.score
  | [] => top.score

/-- The scoring part of `findAnswers` (source lines 263-295) applied to the
TF-IDF callback output and the fuzzy results: sort descending, take the top
`k`, classify by the confidence thresholds, else fall back to fuzzy. -/
def findAnswersCore (faqs : List Faq) (scores : List ScoreEntry)
    (fuseResults : List FuseResult) (k : Nat) : QueryResult :=
  match (sortDesc scores).take k with
  | [] => fuzzyFallback fuseResults
  | top :: rest =>
    if TFIDF_STRONG ≤ top.score ∧ TFIDF_SCORE_GAP ≤ gapOf top rest then
      { answer := some (faqs.getD top.index defaultFaq).a, suggestions := [] }
    else if TFIDF_WEAK ≤ top.score then
      { answer := some (faqs.getD top.index defaultFaq).a,
        suggestions := (top :: rest).map (fun b => (faqs.getD b.index defaultFaq).q) }
    else fuzzyFallback fuseResults

/-- The string scored by the TF-IDF index (source lines 259-261): processed
question and processed expansion, concatenated and trimmed. -/
def scoringQuery (lookup : String → List SynResult) (uq : String) : String :=
  jsTrim ((preprocess uq) ++ " " ++ (preprocess (expandQuery lookup uq)))

/-- `findAnswers` (source lines 254-319).  The TF-IDF index (`tfidfs`), the
fuzzy index (`fuseSearch`) and the WordNet database (`lookup`) are the
external collaborators; a missing request body field is the `none` question. -/
def findAnswers (faqs : List Faq) (tfidfs : String → List ScoreEntry)
    (fuseSearch : String → Nat → List FuseResult) (lookup : String → List SynResult)
    (userQuestion : Option String) (k : Nat) : QueryResult :=
  match userQuestion with
  | none => { answer := none, suggestions := [] }
  | some uq =>
    if uq = "" ∨ jsTrim uq = "" then { answer := none, suggestions := [] }
    else findAnswersCore faqs (tfidfs (scoringQuery lookup uq)) (fuseSearch uq k) k

/-- JS falsiness of the guard `!userQuestion || !userQuestion.trim()`. -/
def jsBlankQ : Option String → Bool
  | none => true
  | some s => s == "" || jsTrim s == ""

/-! ## The `/ask` endpoint (source lines 323-349) -/

/-- The fixed escalation message (source lines 338-339). -/
def ESCALATION_TEXT : String :=
  "Sorry, I wasn\x27t able to answer your question after multiple tries. Call 16221 (toll free) to reach our support team for further detailed help."

/-- `FAIL_LIMIT = 3` (source line 170). -/
def FAIL_LIMIT : Nat := 3

/-- JS truthiness of `result.answer`: present and not the empty string. -/
def jsTruthyStr : Option String → Bool
  | none => false
  | some s => !(s == "")

/-- One `/ask` request given the `findAnswers` result: reset the failure
counter on a truthy answer, else increment it and, upon reaching
`FAIL_LIMIT`, reset it and substitute the escalation response (source lines
329-344). -/
def askStep (failCount : Nat) (result : QueryResult) : Nat × QueryResult :=
  if jsTruthyStr result.answer then (0, result)
  else
    let f := failCount + 1
    if FAIL_LIMIT ≤ f then (0, { answer := some ESCALATION_TEXT, suggestions := [] })
    else (f, result)

/-- A sequence of `/ask` requests threading the process-wide failure
counter; returns the final counter and the responses. -/
def runAsk : Nat → List QueryResult → Nat × List QueryResult
  | f, [] => (f, [])
  | f, r :: rs =>
    let s := askStep f r
    let t := runAsk s.1 rs
    (t.1, s.2 :: t.2)

/-- The full `/ask` handler: `findAnswers` (with its default `k = 3`)
followed by the failure-tracking response logic. -/
def handleAsk (faqs : List Faq) (tfidfs : String → List ScoreEntry)
    (fuseSearch : String → Nat → List FuseResult) (lookup : String → List SynResult)
    (failCount : Nat) (question : Option String) : Nat × QueryResult :=
  askStep failCount (findAnswers faqs tfidfs fuseSearch lookup question 3)

/-! ## Corpus loading and `/reload` (source lines 174-199 and 353-360) -/

/-- Response of the `/reload` endpoint: 200 with a status, or 500. -/
inductive ReloadStatus where
  | reloaded : ReloadStatus
  | failed : ReloadStatus
deriving DecidableEq

/-- The module-level mutable state of the server: the corpus and the two
derived indexes.  The fuzzy index is modelled by the entry list it was built
over (its options are fixed constants in the source). -/
structure ServerState where
  faqs : List Faq
  tfidfDocs : List String
  fuse : Option (List Faq)
deriving DecidableEq

/-- `raw.replace(/\r\n/g, "\n")` (source line 176). -/
def normalizeNewlinesL : List Char → List Char
  | [] => []
  | '\r' :: '\n' :: rest => '\n' :: normalizeNewlinesL rest
  | c :: rest => c :: normalizeNewlinesL rest

/-- Modelled from the spec: the `Q:`/`A:` block scanner (section 6; the
source implements it with a regex `exec` loop at lines 178-188, declared
external plumbing by the spec).  A block is a `Q:` line directly followed by
an `A:` line; the answer extends over the following lines up to the next
`Q:` line or the end of input; a `Q:` line not followed by an `A:` line is
absent from the result. -/
def parseBlocks : List String → List Faq
  | [] => []
  | [_] => []
  | line :: aline :: rest2 =>
    if line.startsWith "Q:" then
      (if aline.startsWith "A:" then
        let ansTail := rest2.takeWhile (fun l => !(l.startsWith "Q:"))
        { q := jsTrim (line.drop 2),
          a := jsTrim (String.intercalate "\n" ((aline.drop 2) :: ansTail)) }
          :: parseBlocks rest2
      else parseBlocks (aline :: rest2))
    else parseBlocks (aline :: rest2)

/-- `loadFaqs` (source lines 174-199) as a transition on the server state.
The file system read is the external parameter `readFile`; when it throws,
the exception propagates before any of the assignments to `faqs`,
`tfidf.documents` or `fuse` runs.  On success all three are rebuilt from the
parsed corpus. -/
def loadFaqsRun (readFile : Except String String) : Except String ServerState :=
  match readFile with
  | Except.error e => Except.error e
  | Except.ok raw =>
    let text := String.mk (normalizeNewlinesL raw.toList)
    let fs := parseBlocks (text.splitOn "\n")
    Except.ok { faqs := fs, tfidfDocs := fs.map (fun f => preprocess f.q), fuse := some fs }

/-- The `/reload` endpoint (source lines 353-360): `loadFaqs` inside a
`try`/`catch`; on a throw the previous state stays in effect and a 500
status is returned. -/
def reloadHandler (readFile : Except String String) (st : ServerState) :
    ServerState × ReloadStatus :=
  match loadFaqsRun readFile with
  | Except.ok st2 => (st2, ReloadStatus.reloaded)
  | Except.error _ => (st, ReloadStatus.failed)

/-! ## Concrete environments used by witnesses and counterexamples

Each models one reachable behaviour of the external collaborators: a TF-IDF
index returns one score per indexed document (identical documents get
identical scores), a fuzzy index returns an ascending, thresholded,
truncated result list, and a WordNet lookup returns synonym sets. -/

/-- A two-entry corpus with distinct questions. -/
def wFaqs : List Faq := [⟨"q1", "a1"⟩, ⟨"q2", "a2"⟩]

/-- TF-IDF behaviour: entry 0 scores 0.5, entry 1 scores 0.1. -/
def wTfidfs : String → List ScoreEntry := fun _ => [⟨0, mkRat 1 2⟩, ⟨1, mkRat 1 10⟩]

/-- TF-IDF behaviour over an empty corpus: no score callbacks. -/
def wTfidfs0 : String → List ScoreEntry := fun _ => []

/-- Fuzzy index behaviour: no candidate within the distance threshold. -/
def wFuse : String → Nat → List FuseResult := fun _ _ => []

/-- WordNet behaviour: no synonyms for any word. -/
def wLookup : String → List SynResult := fun _ => []

/-- A corpus with two entries sharing the same question text (the data model
allows duplicates; both get indexed over identical normalized documents, so
the TF-IDF index scores them identically). -/
def dupFaqs : List Faq := [⟨"A", "ans1"⟩, ⟨"A", "ans2"⟩]

/-- TF-IDF behaviour over `dupFaqs`: the two identical documents receive the
same score, here 0.25. -/
def dupTf : String → List ScoreEntry := fun _ => [⟨0, mkRat 1 4⟩, ⟨1, mkRat 1 4⟩]

/-- A corpus entry with an empty answer text, as produced by `loadFaqs` from
the block `Q: q1` followed by a bare `A:` line. -/
def emptyAnsFaqs : List Faq := [⟨"q1", ""⟩]

/-- TF-IDF behaviour scoring the single entry 0.5 (a strong, unambiguous
match). -/
def strongTf : String → List ScoreEntry := fun _ => [⟨0, mkRat 1 2⟩]

/-- A one-entry corpus for the fuzzy-miss counterexample. -/
def cFaqs4 : List Faq := [⟨"How do I reset my password?", "Use the reset link."⟩]

/-- TF-IDF behaviour scoring the single entry 0 (no term overlap). -/
def zeroTf : String → List ScoreEntry := fun _ => [⟨0, 0⟩]

/-- WordNet behaviour with one synonym set for the word `hello`, containing
a multi-word synonym that must be discarded. -/
def wLk7 : String → List SynResult :=
  fun w => if w = "hello" then [⟨["Hi", "good day", "Howdy"]⟩] else []

/-- Fuzzy index behaviour returning two candidates with similarities 0.1 and
0.2 (ascending, both within the 0.45 distance threshold). -/
def wFuse3 : String → Nat → List FuseResult :=
  fun _ _ => [⟨⟨"qa", "aa"⟩, mkRat 1 10⟩, ⟨⟨"qb", "ab"⟩, mkRat 2 10⟩]

/-- Fuzzy index behaviour returning one candidate with similarity 0.9,
outside the acceptance threshold. -/
def wFuseHi : String → Nat → List FuseResult :=
  fun _ _ => [⟨⟨"qa", "aa"⟩, mkRat 9 10⟩]

/-- A blank question (whitespace only). -/
def blankQ : Option String := some " "

/-! ## Bridging the computable score model to the standard operations -/

theorem ratSub_eq (a b : ℚ) : ratSub a b = a - b := by
  unfold ratSub
  rw [Rat.sub_def, Rat.normalize_eq_mkRat]

theorem ratAbs_eq (q : ℚ) : ratAbs q = |q| := by
  unfold ratAbs
  rcases lt_or_le q 0 with h | h
  · rw [if_pos h, abs_of_neg h]
  · rw [if_neg (not_lt.mpr h), abs_of_nonneg h]

/-! ## General lemmas about the decision paths -/

theorem findAnswers_some {faqs : List Faq} {tfidfs : String → List ScoreEntry}
    {fuseSearch : String → Nat → List FuseResult} {lookup : String → List SynResult}
    {uq : String} {k : Nat} (hq : ¬(uq = "" ∨ jsTrim uq = "")) :
    findAnswers faqs tfidfs fuseSearch lookup (some uq) k =
      findAnswersCore faqs (tfidfs (scoringQuery lookup uq)) (fuseSearch uq k) k := by
  simp [findAnswers, hq]

theorem findAnswersCore_cons {faqs : List Faq} {scores : List ScoreEntry}
    {fr : List FuseResult} {k : Nat} {top : ScoreEntry} {rest : List ScoreEntry}
    (htake : (sortDesc scores).take k = top :: rest) :
    findAnswersCore faqs scores fr k =
      if TFIDF_STRONG ≤ top.score ∧ TFIDF_SCORE_GAP ≤ gapOf top rest then
        { answer := some (faqs.getD top.index defaultFaq).a, suggestions := [] }
      else if TFIDF_WEAK ≤ top.score then
        { answer := some (faqs.getD top.index defaultFaq).a,
          suggestions := (top :: rest).map (fun b => (faqs.getD b.index defaultFaq).q) }
      else fuzzyFallback fr := by
  simp only [findAnswersCore, htake]

theorem findAnswersCore_nil {faqs : List Faq} {scores : List ScoreEntry}
    {fr : List FuseResult} {k : Nat} (htake : (sortDesc scores).take k = []) :
    findAnswersCore faqs scores fr k = fuzzyFallback fr := by
  simp only [findAnswersCore, htake]

theorem tfidf_weak_lt_strong : TFIDF_WEAK < TFIDF_STRONG := by decide

theorem findAnswersCore_low {faqs : List Faq} {scores : List ScoreEntry}
    {fr : List FuseResult} {k : Nat}
    (hlow : ∀ e ∈ (sortDesc scores).take k, e.score < TFIDF_WEAK) :
    findAnswersCore faqs scores fr k = fuzzyFallback fr := by
  cases htake : (sortDesc scores).take k with
  | nil => exact findAnswersCore_nil htake
  | cons top rest =>
    have htop : top.score < TFIDF_WEAK := hlow top (htake ▸ List.mem_cons_self _ _)
    have hns : ¬(TFIDF_STRONG ≤ top.score ∧ TFIDF_SCORE_GAP ≤ gapOf top rest) := by
      rintro ⟨h1, -⟩
      exact absurd (lt_of_lt_of_le (lt_trans htop tfidf_weak_lt_strong) h1) (lt_irrefl _)
    have hnw : ¬(TFIDF_WEAK ≤ top.score) := not_le.mpr htop
    rw [findAnswersCore_cons htake, if_neg hns, if_neg hnw]

theorem fuzzyFallback_suggestions (fr : List FuseResult) :
    (fuzzyFallback fr).suggestions = fr.map (fun r => r.item.q) := by
  cases fr with
  | nil => rfl
  | cons r0 rest =>
    cases rest with
    | nil => simp only [fuzzyFallback]; split <;> rfl
    | cons r1 rest2 =>
      simp only [fuzzyFallback]
      split
      · split <;> rfl
      · rfl

theorem fuzzyFallback_accept2 {r0 r1 : FuseResult} {rest : List FuseResult}
    (hacc : r0.score ≤ FUSE_ACCEPT_THRESHOLD)
    (hgap : FUSE_AMBIGUITY_EPS ≤ ratAbs (ratSub r0.score r1.score)) :
    fuzzyFallback (r0 :: r1 :: rest) =
      { answer := some r0.item.a,
        suggestions := (r0 :: r1 :: rest).map (fun r => r.item.q) } := by
  simp only [fuzzyFallback]
  rw [if_pos hacc, if_neg (not_lt.mpr hgap)]

theorem fuzzyFallback_ambiguous {r0 r1 : FuseResult} {rest : List FuseResult}
    (hacc : r0.score ≤ FUSE_ACCEPT_THRESHOLD)
    (hgap : ratAbs (ratSub r0.score r1.score) < FUSE_AMBIGUITY_EPS) :
    fuzzyFallback (r0 :: r1 :: rest) =
      { answer := none,
        suggestions := (r0 :: r1 :: rest).map (fun r => r.item.q) } := by
  simp only [fuzzyFallback]
  rw [if_pos hacc, if_pos hgap]

theorem fuzzyFallback_reject {r0 : FuseResult} {rest : List FuseResult}
    (hacc : ¬(r0.score ≤ FUSE_ACCEPT_THRESHOLD)) :
    fuzzyFallback (r0 :: rest) =
      { answer := none, suggestions := (r0 :: rest).map (fun r => r.item.q) } := by
  simp only [fuzzyFallback]
  rw [if_neg hacc]

theorem askStep_truthy {r : QueryResult} (f : Nat) (h : jsTruthyStr r.answer = true) :
    askStep f r = (0, r) := by
  simp [askStep, h]

theorem askStep_miss {r : QueryResult} {f : Nat} (h : jsTruthyStr r.answer = false)
    (hf : f + 1 < FAIL_LIMIT) : askStep f r = (f + 1, r) := by
  simp [askStep, h, Nat.not_le.mpr hf]

theorem askStep_hit {r : QueryResult} {f : Nat} (h : jsTruthyStr r.answer = false)
    (hf : FAIL_LIMIT ≤ f + 1) :
    askStep f r = (0, { answer := some ESCALATION_TEXT, suggestions := [] }) := by
  simp [askStep, h, hf]

theorem askStep_fst_lt (f : Nat) (r : QueryResult) : (askStep f r).1 < FAIL_LIMIT := by
  by_cases h : jsTruthyStr r.answer = true
  · rw [askStep_truthy f h]; exact Nat.succ_pos 2
  · have h2 : jsTruthyStr r.answer = false := by simpa using h
    by_cases hf : FAIL_LIMIT ≤ f + 1
    · rw [askStep_hit h2 hf]; exact Nat.succ_pos 2
    · rw [askStep_miss h2 (Nat.not_le.mp hf)]
      exact Nat.not_le.mp hf

theorem runAsk_fst_lt : ∀ (rs : List QueryResult) (f : Nat), f < FAIL_LIMIT →
    (runAsk f rs).1 < FAIL_LIMIT
  | [], _, h => h
  | r :: rs, f, _ => by
    simp only [runAsk]
    exact runAsk_fst_lt rs (askStep f r).1 (askStep_fst_lt f r)

/-! ## Claim C1 -/

/-- C1: for every query whose relevance scoring yields a non-empty result
list, if the top score is at least `TFIDF_STRONG` (0.3) and the gap to the
second-best score (taken as the top score itself when there is no second
result, i.e. the missing second score counts as 0) is at least
`TFIDF_SCORE_GAP` (0.08), then `findAnswers` returns the answer of that top entry
with an empty suggestions list; otherwise, if the top score is at least
`TFIDF_WEAK` (0.2), it returns the answer of that top entry together with the
top-`k` candidate questions as suggestions. -/
theorem c1_confidence_classification (faqs : List Faq) (tfidfs : String → List ScoreEntry)
    (fuseSearch : String → Nat → List FuseResult) (lookup : String → List SynResult)
    (uq : String) (k : Nat) (top : ScoreEntry) (rest : List ScoreEntry)
    (hq : ¬(uq = "" ∨ jsTrim uq = ""))
    (htake : (sortDesc (tfidfs (scoringQuery lookup uq))).take k = top :: rest) :
    (TFIDF_STRONG ≤ top.score ∧ TFIDF_SCORE_GAP ≤ gapOf top rest →
      findAnswers faqs tfidfs fuseSearch lookup (some uq) k =
        { answer := some (faqs.getD top.index defaultFaq).a, suggestions := [] }) ∧
    (¬(TFIDF_STRONG ≤ top.score ∧ TFIDF_SCORE_GAP ≤ gapOf top rest) →
      TFIDF_WEAK ≤ top.score →
      findAnswers faqs tfidfs fuseSearch lookup (some uq) k =
        { answer := some (faqs.getD top.index defaultFaq).a,
          suggestions := (top :: rest).map (fun b => (faqs.getD b.index defaultFaq).q) }) := by
  constructor
  · intro hstrong
    rw [findAnswers_some hq, findAnswersCore_cons htake, if_pos hstrong]
  · intro hns hweak
    rw [findAnswers_some hq, findAnswersCore_cons htake, if_neg hns, if_pos hweak]

/-- Witness for C1: with the two-entry corpus `wFaqs` scored 0.5 and 0.1,
the strong branch fires and returns the answer of entry 0 with no
suggestions. -/
theorem c1_confidence_classification_witness :
    findAnswers wFaqs wTfidfs wFuse wLookup (some "hello") 3 =
      { answer := some "a1", suggestions := [] } := by
  have h := (c1_confidence_classification wFaqs wTfidfs wFuse wLookup "hello" 3
    ⟨0, mkRat 1 2⟩ [⟨1, mkRat 1 10⟩] (by decide) (by decide)).1 (by decide)
  exact h.trans (by decide)

/-! ## Claim C2 -/

/-- C2 counterexample: a corpus entry with an empty answer string is scored
strongly, so `findAnswers` returns a result whose `answer` is non-null (it
is `some ""`), yet the `/ask` handler increments the failure counter to 1
instead of resetting it to 0, because the JS guard `if (result.answer)`
tests truthiness, not nullness. -/
theorem c2_counterexample :
    (handleAsk emptyAnsFaqs strongTf wFuse wLookup 0 (some "hello")).2.answer ≠ none ∧
    (handleAsk emptyAnsFaqs strongTf wFuse wLookup 0 (some "hello")).1 = 1 := by
  constructor
  · decide
  · decide

/-- C2 (amended): each `/ask` call whose result carries a truthy (non-null
and non-empty) answer resets the consecutive-failure counter to 0; each call
whose result has a falsy answer (null, or the empty string) increments it;
and the `FAIL_LIMIT`-th (3rd) consecutive such call instead returns the
fixed escalation message with an empty suggestions list, with the counter 0
immediately afterwards. -/
theorem c2_failure_tracking (f : Nat) (r r1 r2 r3 : QueryResult) :
    (jsTruthyStr r.answer = true → askStep f r = (0, r)) ∧
    (jsTruthyStr r.answer = false → f + 1 < FAIL_LIMIT → askStep f r = (f + 1, r)) ∧
    (jsTruthyStr r.answer = false → FAIL_LIMIT ≤ f + 1 →
      askStep f r = (0, { answer := some ESCALATION_TEXT, suggestions := [] })) ∧
    (jsTruthyStr r1.answer = false → jsTruthyStr r2.answer = false →
      jsTruthyStr r3.answer = false →
      runAsk 0 [r1, r2, r3] =
        (0, [r1, r2, { answer := some ESCALATION_TEXT, suggestions := [] }])) := by
  refine ⟨fun h => askStep_truthy f h, fun h hf => askStep_miss h hf,
    fun h hf => askStep_hit h hf, fun h1 h2 h3 => ?_⟩
  have e1 : askStep 0 r1 = (1, r1) := askStep_miss h1 (by decide)
  have e2 : askStep 1 r2 = (2, r2) := askStep_miss h2 (by decide)
  have e3 : askStep 2 r3 = (0, { answer := some ESCALATION_TEXT, suggestions := [] }) :=
    askStep_hit h3 (by decide)
  simp only [runAsk, e1, e2, e3]

/-- Witness for C2: starting from 0, three consecutive no-answer results
produce two regular responses and then the escalation message, with the
counter back at 0. -/
theorem c2_failure_tracking_witness :
    runAsk 0 [⟨none, []⟩, ⟨none, []⟩, ⟨none, []⟩] =
      (0, [⟨none, []⟩, ⟨none, []⟩, ⟨some ESCALATION_TEXT, []⟩]) :=
  (c2_failure_tracking 0 ⟨none, []⟩ ⟨none, []⟩ ⟨none, []⟩ ⟨none, []⟩).2.2.2
    (by decide) (by decide) (by decide)

/-! ## Claim C5 -/

/-- C5 counterexample: three consecutive blank queries from a fresh counter;
each `findAnswers` result is `{answer: null, suggestions: []}`, but the
third `/ask` response is the escalation message, not
`{answer: null, suggestions: []}` as the claim states for every blank
query. -/
theorem c5_counterexample :
    (handleAsk [] wTfidfs0 wFuse wLookup
        ((handleAsk [] wTfidfs0 wFuse wLookup
          ((handleAsk [] wTfidfs0 wFuse wLookup 0 blankQ).1) blankQ).1) blankQ).2 ≠
      { answer := none, suggestions := [] } := by
  decide

/-- C5 (amended): for every empty or blank (whitespace-only or missing)
query, `findAnswers` returns `{answer: null, suggestions: []}` without
consulting the relevance or fuzzy index (the result is the same for every
index behaviour), and the `/ask` response is that same value except when
this no-answer outcome is the `FAIL_LIMIT`-th consecutive failure, in which
case the escalation override replaces it. -/
theorem c5_blank_query (faqs : List Faq) (tfidfs : String → List ScoreEntry)
    (fuseSearch : String → Nat → List FuseResult) (lookup : String → List SynResult)
    (k f : Nat) (q : Option String) (hb : jsBlankQ q = true) :
    findAnswers faqs tfidfs fuseSearch lookup q k = { answer := none, suggestions := [] } ∧
    (f + 1 < FAIL_LIMIT →
      handleAsk faqs tfidfs fuseSearch lookup f q =
        (f + 1, { answer := none, suggestions := [] })) := by
  have hfa : ∀ k2 : Nat,
      findAnswers faqs tfidfs fuseSearch lookup q k2 = { answer := none, suggestions := [] } := by
    intro k2
    cases q with
    | none => rfl
    | some s =>
      have hb2 : s = "" ∨ jsTrim s = "" := by
        simpa [jsBlankQ] using hb
      simp only [findAnswers]
      rw [if_pos hb2]
  refine ⟨hfa k, fun hf => ?_⟩
  unfold handleAsk
  rw [hfa 3]
  exact askStep_miss (by decide) hf

/-- Witness for C5: a whitespace-only question with any index behaviour
yields the empty no-answer result, and from counter 0 the handler responds
with it while moving the counter to 1. -/
theorem c5_blank_query_witness :
    findAnswers wFaqs wTfidfs wFuse wLookup (some "  ") 5 =
      { answer := none, suggestions := [] } ∧
    handleAsk wFaqs wTfidfs wFuse wLookup 0 (some "  ") =
      (1, { answer := none, suggestions := [] }) := by
  have h := c5_blank_query wFaqs wTfidfs wFuse wLookup 5 0 (some "  ") (by decide)
  exact ⟨h.1, h.2 (by decide)⟩

/-! ## Claim C3 -/

/-- C3: whenever the relevance index is not confident (every top-`k` TF-IDF
score is below `TFIDF_WEAK`) and the fuzzy matcher returns at least two
candidates whose best similarity is within `FUSE_ACCEPT_THRESHOLD` (0.3):
if the best and second-best similarities differ by at least the ambiguity
epsilon (0.05), `findAnswers` returns the answer of the best candidate with the
candidate questions as suggestions; if they lie within epsilon of each
other, it returns a null answer with those candidates as suggestions. -/
theorem c3_fuzzy_decision (faqs : List Faq) (tfidfs : String → List ScoreEntry)
    (fuseSearch : String → Nat → List FuseResult) (lookup : String → List SynResult)
    (uq : String) (k : Nat) (r0 r1 : FuseResult) (frest : List FuseResult)
    (hq : ¬(uq = "" ∨ jsTrim uq = ""))
    (hlow : ∀ e ∈ (sortDesc (tfidfs (scoringQuery lookup uq))).take k, e.score < TFIDF_WEAK)
    (hfr : fuseSearch uq k = r0 :: r1 :: frest)
    (hacc : r0.score ≤ FUSE_ACCEPT_THRESHOLD) :
    (FUSE_AMBIGUITY_EPS ≤ ratAbs (ratSub r0.score r1.score) →
      findAnswers faqs tfidfs fuseSearch lookup (some uq) k =
        { answer := some r0.item.a,
          suggestions := (r0 :: r1 :: frest).map (fun r => r.item.q) }) ∧
    (ratAbs (ratSub r0.score r1.score) < FUSE_AMBIGUITY_EPS →
      findAnswers faqs tfidfs fuseSearch lookup (some uq) k =
        { answer := none,
          suggestions := (r0 :: r1 :: frest).map (fun r => r.item.q) }) := by
  constructor
  · intro hgap
    rw [findAnswers_some hq, findAnswersCore_low hlow, hfr, fuzzyFallback_accept2 hacc hgap]
  · intro hgap
    rw [findAnswers_some hq, findAnswersCore_low hlow, hfr, fuzzyFallback_ambiguous hacc hgap]

/-- Witness for C3: an empty TF-IDF response and two fuzzy candidates at
similarities 0.1 and 0.2 (gap 0.1, unambiguous) yield the answer of the best
candidate with both questions suggested. -/
theorem c3_fuzzy_decision_witness :
    findAnswers [] wTfidfs0 wFuse3 wLookup (some "zzzz") 3 =
      { answer := some "aa", suggestions := ["qa", "qb"] } := by
  have h := (c3_fuzzy_decision [] wTfidfs0 wFuse3 wLookup "zzzz" 3
    ⟨⟨"qa", "aa"⟩, mkRat 1 10⟩ ⟨⟨"qb", "ab"⟩, mkRat 2 10⟩ []
    (by decide) (by decide) (by decide) (by decide)).1 (by decide)
  exact h.trans (by decide)

/-! ## Claim C4 -/

/-- C4 counterexample: a non-blank query with TF-IDF score 0 over a
non-empty corpus and an empty fuzzy candidate list.  The claim mandates the
first `k` corpus questions as suggestions, but `findAnswers` returns an
empty suggestions list (the corpus-question fallback exists only in the
legacy `findAnswers` at source lines 543-556, not in the active
implementation). -/
theorem c4_counterexample :
    findAnswers cFaqs4 zeroTf wFuse wLookup (some "zzz") 3 =
      { answer := none, suggestions := [] } ∧
    (cFaqs4.take 3).map (fun f => f.q) = ["How do I reset my password?"] := by
  constructor
  · decide
  · decide

/-- C4 (amended): for every non-blank query reaching the fuzzy fallback in
which the best fuzzy candidate (if any) does not clear the acceptance
threshold, `findAnswers` returns a null answer whose suggestions are exactly
the fuzzy candidates — possibly the empty list; the first-`k`
corpus-question fallback of the legacy implementation is absent. -/
theorem c4_no_fuzzy_clear (faqs : List Faq) (tfidfs : String → List ScoreEntry)
    (fuseSearch : String → Nat → List FuseResult) (lookup : String → List SynResult)
    (uq : String) (k : Nat)
    (hq : ¬(uq = "" ∨ jsTrim uq = ""))
    (hlow : ∀ e ∈ (sortDesc (tfidfs (scoringQuery lookup uq))).take k, e.score < TFIDF_WEAK)
    (hnc : ∀ r0 ∈ (fuseSearch uq k).head?, ¬(r0.score ≤ FUSE_ACCEPT_THRESHOLD)) :
    findAnswers faqs tfidfs fuseSearch lookup (some uq) k =
      { answer := none, suggestions := (fuseSearch uq k).map (fun r => r.item.q) } := by
  rw [findAnswers_some hq, findAnswersCore_low hlow]
  cases hfr : fuseSearch uq k with
  | nil => rfl
  | cons r0 rest =>
    have h0 : ¬(r0.score ≤ FUSE_ACCEPT_THRESHOLD) := by
      refine hnc r0 ?_
      rw [hfr]
      rfl
    rw [fuzzyFallback_reject h0]

/-- Witness for C4 (amended): a single fuzzy candidate at similarity 0.9
does not clear the threshold, and the null answer carries that candidate as
the only suggestion. -/
theorem c4_no_fuzzy_clear_witness :
    findAnswers [] wTfidfs0 wFuseHi wLookup (some "zzzz") 3 =
      { answer := none, suggestions := ["qa"] } := by
  have h := c4_no_fuzzy_clear [] wTfidfs0 wFuseHi wLookup "zzzz" 3
    (by decide) (by decide) (by decide)
  exact h.trans (by decide)

/-! ## Claim C8 -/

/-- C8 counterexample: with a corpus holding two entries of identical
question text (allowed by the data model) both entries are indexed over
identical normalized documents, so the TF-IDF index scores them equally;
the weak path then suggests the same question twice — the suggestions list
is not deduplicated. -/
theorem c8_counterexample :
    (findAnswers dupFaqs dupTf wFuse wLookup (some "zz") 3).suggestions = ["A", "A"] ∧
    ¬ List.Nodup (findAnswers dupFaqs dupTf wFuse wLookup (some "zz") 3).suggestions := by
  constructor
  · decide
  · decide

/-- C8 (amended): the suggestions list is score-ordered but not
deduplicated: the stable descending sort of the TF-IDF scores is sorted
under `ScoreGE`, the weak path returns the in-order image of its top-`k`
prefix, and the fuzzy path returns the in-order image of the fuzzy result
list (which the fuzzy index produces in ascending similarity order).
Duplicate question texts in the corpus can therefore repeat. -/
theorem c8_suggestions_ordering (faqs : List Faq) (tfidfs : String → List ScoreEntry)
    (fuseSearch : String → Nat → List FuseResult) (lookup : String → List SynResult)
    (uq : String) (k : Nat) (top : ScoreEntry) (rest : List ScoreEntry)
    (hq : ¬(uq = "" ∨ jsTrim uq = "")) :
    List.Sorted ScoreGE (sortDesc (tfidfs (scoringQuery lookup uq))) ∧
    ((sortDesc (tfidfs (scoringQuery lookup uq))).take k = top :: rest →
      ¬(TFIDF_STRONG ≤ top.score ∧ TFIDF_SCORE_GAP ≤ gapOf top rest) →
      TFIDF_WEAK ≤ top.score →
      (findAnswers faqs tfidfs fuseSearch lookup (some uq) k).suggestions =
        ((sortDesc (tfidfs (scoringQuery lookup uq))).take k).map
          (fun b => (faqs.getD b.index defaultFaq).q)) ∧
    ((∀ e ∈ (sortDesc (tfidfs (scoringQuery lookup uq))).take k, e.score < TFIDF_WEAK) →
      (findAnswers faqs tfidfs fuseSearch lookup (some uq) k).suggestions =
        (fuseSearch uq k).map (fun r => r.item.q)) := by
  refine ⟨List.sorted_insertionSort ScoreGE _, fun htake hns hw => ?_, fun hlow => ?_⟩
  · rw [findAnswers_some hq, findAnswersCore_cons htake, if_neg hns, if_pos hw, htake]
  · rw [findAnswers_some hq, findAnswersCore_low hlow, fuzzyFallback_suggestions]

/-- Witness for C8 (amended): at the duplicate-question corpus the weak
path returns the image of the sorted top-`k` prefix (which here repeats the
question text). -/
theorem c8_suggestions_ordering_witness :
    (findAnswers dupFaqs dupTf wFuse wLookup (some "zz") 3).suggestions =
      ((sortDesc (dupTf (scoringQuery wLookup "zz"))).take 3).map
        (fun b => (dupFaqs.getD b.index defaultFaq).q) :=
  (c8_suggestions_ordering dupFaqs dupTf wFuse wLookup "zz" 3
    ⟨0, mkRat 1 4⟩ [⟨1, mkRat 1 4⟩] (by decide)).2.1 (by decide) (by decide) (by decide)

/-! ## Lemmas about splitting, joining and token stability (Normalizer) -/

theorem splitSep_ne_nil (p : Char → Bool) (cs : List Char) : splitSep p cs ≠ [] := by
  cases cs with
  | nil => simp [splitSep]
  | cons c cs =>
    cases h : splitSep p cs with
    | nil => simp [splitSep, h]
    | cons t ts =>
      simp only [splitSep, h]
      split <;> simp

theorem splitSep_cons_sep {p : Char → Bool} {c : Char} (cs : List Char) (h : p c = true) :
    splitSep p (c :: cs) = [] :: splitSep p cs := by
  cases hh : splitSep p cs with
  | nil => exact absurd hh (splitSep_ne_nil p cs)
  | cons t ts =>
    simp only [splitSep, hh]
    rw [if_pos h]

theorem splitSep_cons_not {p : Char → Bool} {c : Char} {cs : List Char} {t : List Char}
    {ts : List (List Char)} (h : p c = false) (hh : splitSep p cs = t :: ts) :
    splitSep p (c :: cs) = (c :: t) :: ts := by
  simp only [splitSep, hh]
  rw [if_neg (by simp [h])]

theorem splitSep_append {p : Char → Bool} {t : List Char} {cs : List Char} {u : List Char}
    {us : List (List Char)} (ht : ∀ c ∈ t, p c = false) (hh : splitSep p cs = u :: us) :
    splitSep p (t ++ cs) = (t ++ u) :: us := by
  induction t with
  | nil => simpa using hh
  | cons c t ih =>
    have hc : p c = false := ht c (List.mem_cons_self c t)
    have ih2 := ih (fun d hd => ht d (List.mem_cons_of_mem c hd))
    exact splitSep_cons_not hc ih2

theorem splitSep_chars {p : Char → Bool} :
    ∀ (cs : List Char), ∀ t ∈ splitSep p cs, ∀ c ∈ t, p c = false
  | [] => by
    intro t ht c hc
    simp only [splitSep, List.mem_singleton] at ht
    subst ht
    simp at hc
  | c0 :: cs => by
    intro t ht c hc
    cases hh : splitSep p cs with
    | nil => exact absurd hh (splitSep_ne_nil p cs)
    | cons u us =>
      by_cases hp : p c0 = true
      · rw [splitSep_cons_sep _ hp] at ht
        rcases List.mem_cons.mp ht with h1 | h2
        · subst h1; simp at hc
        · exact splitSep_chars cs t h2 c hc
      · have hp2 : p c0 = false := by simpa using hp
        rw [splitSep_cons_not hp2 hh] at ht
        rcases List.mem_cons.mp ht with h1 | h2
        · subst h1
          rcases List.mem_cons.mp hc with rfl | hc2
          · exact hp2
          · exact splitSep_chars cs u (by rw [hh]; exact List.mem_cons_self u us) c hc2
        · exact splitSep_chars cs t (by rw [hh]; exact List.mem_cons_of_mem u h2) c hc

theorem toks_chars {p : Char → Bool} {cs : List Char} :
    ∀ t ∈ toksOf p cs, ∀ c ∈ t, p c = false := by
  intro t ht
  exact splitSep_chars cs t (List.mem_of_mem_filter ht)

theorem toks_ne_nil {p : Char → Bool} {cs : List Char} : ∀ t ∈ toksOf p cs, t ≠ [] := by
  intro t ht
  simpa using List.of_mem_filter ht

theorem toksOf_joinSep {p : Char → Bool} {sep : Char} (hsep : p sep = true) :
    ∀ ts : List (List Char), (∀ t ∈ ts, t ≠ [] ∧ ∀ c ∈ t, p c = false) →
      toksOf p (joinSep sep ts) = ts
  | [], _ => by simp [joinSep, toksOf, splitSep]
  | [t], h => by
    have ht := h t (List.mem_singleton.mpr rfl)
    have hsplit : splitSep p (t ++ ([] : List Char)) = (t ++ ([] : List Char)) :: [] :=
      splitSep_append ht.2 rfl
    rw [List.append_nil] at hsplit
    simp only [joinSep, toksOf, hsplit]
    simp [ht.1]
  | t :: t2 :: ts, h => by
    have ht := h t (List.mem_cons_self _ _)
    have hrest : ∀ u ∈ t2 :: ts, u ≠ [] ∧ ∀ c ∈ u, p c = false :=
      fun u hu => h u (List.mem_cons_of_mem _ hu)
    have ih := toksOf_joinSep hsep (t2 :: ts) hrest
    cases hr : splitSep p (joinSep sep (t2 :: ts)) with
    | nil => exact absurd hr (splitSep_ne_nil _ _)
    | cons u us =>
      have h1 : splitSep p (sep :: joinSep sep (t2 :: ts)) = [] :: u :: us := by
        rw [splitSep_cons_sep _ hsep, hr]
      have h2 : splitSep p (t ++ sep :: joinSep sep (t2 :: ts)) = (t ++ []) :: u :: us :=
        splitSep_append ht.2 h1
      have hfil : (u :: us).filter (fun s => decide (s ≠ [])) = t2 :: ts := by
        have h3 := ih
        unfold toksOf at h3
        rw [hr] at h3
        exact h3
      show toksOf p (t ++ sep :: joinSep sep (t2 :: ts)) = t :: t2 :: ts
      unfold toksOf
      rw [h2, List.append_nil, List.filter_cons_of_pos (by simpa using ht.1), hfil]

theorem mem_joinSep {sep : Char} :
    ∀ (ts : List (List Char)) (c : Char), c ∈ joinSep sep ts → c = sep ∨ ∃ t ∈ ts, c ∈ t
  | [], c, h => by simp [joinSep] at h
  | [t], c, h => by
    simp only [joinSep] at h
    exact Or.inr ⟨t, List.mem_singleton.mpr rfl, h⟩
  | t :: t2 :: ts, c, h => by
    simp only [joinSep] at h
    rcases List.mem_append.mp h with h1 | h2
    · exact Or.inr ⟨t, List.mem_cons_self _ _, h1⟩
    · rcases List.mem_cons.mp h2 with rfl | h3
      · exact Or.inl rfl
      · rcases mem_joinSep (t2 :: ts) c h3 with h4 | ⟨u, hu, hcu⟩
        · exact Or.inl h4
        · exact Or.inr ⟨u, List.mem_cons_of_mem _ hu, hcu⟩

theorem joinSep_ne_nil {sep : Char} {t : List Char} {ts : List (List Char)} (ht : t ≠ []) :
    joinSep sep (t :: ts) ≠ [] := by
  cases ts with
  | nil => simpa [joinSep] using ht
  | cons t2 ts =>
    simp only [joinSep]
    intro h
    exact absurd (List.append_eq_nil.mp h).2 (by simp)

theorem map_id_of {α : Type} {f : α → α} :
    ∀ {l : List α}, (∀ a ∈ l, f a = a) → l.map f = l
  | [], _ => rfl
  | a :: l, h => by
    rw [List.map_cons, h a (List.mem_cons_self _ _),
      map_id_of (fun b hb => h b (List.mem_cons_of_mem _ hb))]

theorem cleanTokenChar_split {c : Char} (h : cleanTokenChar c = true) :
    jsToLower c = c ∧ keepChar c = true ∧ jsWS c = false := by
  unfold cleanTokenChar at h
  simp only [Bool.and_eq_true, beq_iff_eq, Bool.not_eq_true'] at h
  exact ⟨h.1.1, h.1.2, h.2⟩

theorem processedTokens_ne_nil {x : String} : ∀ t ∈ processedTokens x, t ≠ [] := by
  intro t ht
  unfold processedTokens at ht
  simpa using List.of_mem_filter ht

/-! ## Claim C6 -/

/-- C6 counterexample: `preprocess` is not idempotent on every input.  The
non-stopword `cans` stems to `can`, which is an English stopword, so a
second normalisation pass drops it: `preprocess "cans" = "can"` but
`preprocess (preprocess "cans") = ""`. -/
theorem c6_counterexample :
    preprocess (preprocess "cans") ≠ preprocess "cans" ∧
    preprocess "cans" = "can" ∧ preprocess "can" = "" := by
  refine ⟨?_, ?_, ?_⟩
  · decide
  · decide
  · decide

/-- C6 (amended): `preprocess` is idempotent on every input whose processed
tokens are normalisation-stable — each token character is case-fixed,
allowed and non-whitespace, and each English token is a non-stopword fixed
point of the stemmer.  (Already-normalized text is a fixed point under these
conditions; in general a second pass can drop or further stem tokens, since
stemming can map a non-stopword onto a stopword.) -/
theorem c6_preprocess_idempotent (x : String)
    (h1 : ∀ t ∈ processedTokens x, ∀ c ∈ t, cleanTokenChar c = true)
    (h2 : ∀ t ∈ processedTokens x, t.any isLowerAZ = true →
      t ∉ stopwordsL ∧ porterStem t = t) :
    preprocess (preprocess x) = preprocess x := by
  by_cases hx : x = ""
  · subst hx; rfl
  · have hpre : preprocess x = String.mk (joinSep ' ' (processedTokens x)) := by
      unfold preprocess
      rw [if_neg hx]
    cases hts : processedTokens x with
    | nil =>
      rw [hpre, hts]
      rfl
    | cons t0 ts0 =>
      rw [hpre, hts]
      have hne : ∀ t ∈ t0 :: ts0, t ≠ [] := by
        intro t htm
        exact processedTokens_ne_nil t (by rw [hts]; exact htm)
      have hch : ∀ t ∈ t0 :: ts0, ∀ c ∈ t, cleanTokenChar c = true := by
        intro t htm
        exact h1 t (by rw [hts]; exact htm)
      have hst : ∀ t ∈ t0 :: ts0, t.any isLowerAZ = true → t ∉ stopwordsL ∧ porterStem t = t := by
        intro t htm
        exact h2 t (by rw [hts]; exact htm)
      have hJne : joinSep ' ' (t0 :: ts0) ≠ [] :=
        joinSep_ne_nil (hne t0 (List.mem_cons_self _ _))
      have hmkne : String.mk (joinSep ' ' (t0 :: ts0)) ≠ "" := by
        intro h
        exact hJne (congrArg String.data h)
      have hJlow : (joinSep ' ' (t0 :: ts0)).map jsToLower = joinSep ' ' (t0 :: ts0) := by
        refine map_id_of ?_
        intro c hc
        rcases mem_joinSep _ c hc with rfl | ⟨t, htm, hct⟩
        · decide
        · exact (cleanTokenChar_split (hch t htm c hct)).1
      have hJclean : (joinSep ' ' (t0 :: ts0)).map (fun c => if keepChar c then c else ' ') =
          joinSep ' ' (t0 :: ts0) := by
        refine map_id_of ?_
        intro c hc
        rcases mem_joinSep _ c hc with rfl | ⟨t, htm, hct⟩
        · decide
        · rw [if_pos ((cleanTokenChar_split (hch t htm c hct)).2.1)]
      have hJtoks : toksOf jsWS (joinSep ' ' (t0 :: ts0)) = t0 :: ts0 := by
        refine toksOf_joinSep (by decide) (t0 :: ts0) ?_
        intro t htm
        exact ⟨hne t htm, fun c hc => (cleanTokenChar_split (hch t htm c hc)).2.2⟩
      have hmap : (t0 :: ts0).map mapToken = t0 :: ts0 := by
        refine map_id_of ?_
        intro t htm
        unfold mapToken
        by_cases he : t.any isLowerAZ = true
        · rw [if_pos he, if_neg (hst t htm he).1]
          exact (hst t htm he).2
        · rw [if_neg he]
      have hfil : (t0 :: ts0).filter (fun t => decide (t ≠ [])) = t0 :: ts0 := by
        rw [List.filter_eq_self]
        intro t htm
        simpa using hne t htm
      have hPT : processedTokens (String.mk (joinSep ' ' (t0 :: ts0))) = t0 :: ts0 := by
        unfold processedTokens
        rw [show (String.mk (joinSep ' ' (t0 :: ts0))).toList = joinSep ' ' (t0 :: ts0) from rfl,
          hJlow, hJclean, hJtoks, hmap, hfil]
      unfold preprocess
      rw [if_neg hmkne, hPT]

/-- Witness for C6 (amended): the word `password` is a non-stopword fixed
point of the stemmer, so its normalisation is a `preprocess` fixed point. -/
theorem c6_preprocess_idempotent_witness :
    preprocess (preprocess "password") = preprocess "password" :=
  c6_preprocess_idempotent "password" (by decide) (by decide)

/-! ## Lemmas about the synonym accumulation (Synonym Expander) -/

theorem mem_addWord_self (acc : List String) (w : String) : w ∈ addWord acc w := by
  unfold addWord
  split
  · assumption
  · exact List.mem_append_right _ (List.mem_singleton.mpr rfl)

theorem mem_addWord_of_mem {acc : List String} {v : String} (w : String) (h : v ∈ acc) :
    v ∈ addWord acc w := by
  unfold addWord
  split
  · exact h
  · exact List.mem_append_left _ h

theorem mem_addWord {acc : List String} {v w : String} (h : v ∈ addWord acc w) :
    v ∈ acc ∨ v = w := by
  unfold addWord at h
  split at h
  · exact Or.inl h
  · rcases List.mem_append.mp h with h1 | h2
    · exact Or.inl h1
    · exact Or.inr (List.mem_singleton.mp h2)

theorem mem_foldl_addWord_of_mem :
    ∀ (ws : List String) (acc : List String) (w : String), w ∈ acc → w ∈ ws.foldl addWord acc
  | [], _, _, h => h
  | u :: ws, acc, w, h =>
    mem_foldl_addWord_of_mem ws (addWord acc u) w (mem_addWord_of_mem u h)

theorem mem_foldl_addWord_of_mem_list :
    ∀ (ws : List String) (acc : List String) (w : String), w ∈ ws → w ∈ ws.foldl addWord acc
  | [], _, w, h => absurd h (List.not_mem_nil w)
  | u :: ws, acc, w, h => by
    rcases List.mem_cons.mp h with rfl | h2
    · exact mem_foldl_addWord_of_mem ws (addWord acc w) w (mem_addWord_self acc w)
    · exact mem_foldl_addWord_of_mem_list ws (addWord acc u) w h2

theorem mem_foldl_addWord :
    ∀ (ws : List String) (acc : List String) (w : String),
      w ∈ ws.foldl addWord acc → w ∈ acc ∨ w ∈ ws
  | [], _, _, h => Or.inl h
  | u :: ws, acc, w, h => by
    rcases mem_foldl_addWord ws (addWord acc u) w h with h1 | h2
    · rcases mem_addWord h1 with h3 | rfl
      · exact Or.inl h3
      · exact Or.inr (List.mem_cons_self _ _)
    · exact Or.inr (List.mem_cons_of_mem _ h2)

theorem mem_addSyn_of_mem {acc : List String} {v : String} (s : String) (h : v ∈ acc) :
    v ∈ addSyn acc s := by
  unfold addSyn
  split
  · exact h
  · exact mem_addWord_of_mem _ h

theorem mem_addSyn {acc : List String} {v : String} {s : String} (h : v ∈ addSyn acc s) :
    v ∈ acc ∨ (hasSpace s = false ∧ v = lowerS s) := by
  unfold addSyn at h
  split at h
  · exact Or.inl h
  · rcases mem_addWord h with h1 | h2
    · exact Or.inl h1
    · rename_i hsp
      exact Or.inr ⟨by simpa using hsp, h2⟩

theorem mem_foldl_addSyn_of_mem :
    ∀ (ss : List String) (acc : List String) (v : String), v ∈ acc → v ∈ ss.foldl addSyn acc
  | [], _, _, h => h
  | s :: ss, acc, v, h => mem_foldl_addSyn_of_mem ss (addSyn acc s) v (mem_addSyn_of_mem s h)

theorem mem_foldl_addSyn :
    ∀ (ss : List String) (acc : List String) (v : String), v ∈ ss.foldl addSyn acc →
      v ∈ acc ∨ ∃ s ∈ ss, hasSpace s = false ∧ v = lowerS s
  | [], _, _, h => Or.inl h
  | s :: ss, acc, v, h => by
    rcases mem_foldl_addSyn ss (addSyn acc s) v h with h1 | ⟨s2, hs2, hsp, hv⟩
    · rcases mem_addSyn h1 with h2 | ⟨hsp, hv⟩
      · exact Or.inl h2
      · exact Or.inr ⟨s, List.mem_cons_self _ _, hsp, hv⟩
    · exact Or.inr ⟨s2, List.mem_cons_of_mem _ hs2, hsp, hv⟩

theorem mem_addSynResult_of_mem {acc : List String} {v : String} (r : SynResult) (h : v ∈ acc) :
    v ∈ addSynResult acc r :=
  mem_foldl_addSyn_of_mem r.synonyms acc v h

theorem mem_addSynResult {acc : List String} {v : String} {r : SynResult}
    (h : v ∈ addSynResult acc r) :
    v ∈ acc ∨ ∃ s ∈ r.synonyms, hasSpace s = false ∧ v = lowerS s :=
  mem_foldl_addSyn r.synonyms acc v h

theorem mem_foldl_addSynResult_of_mem :
    ∀ (rs : List SynResult) (acc : List String) (v : String), v ∈ acc →
      v ∈ rs.foldl addSynResult acc
  | [], _, _, h => h
  | r :: rs, acc, v, h =>
    mem_foldl_addSynResult_of_mem rs (addSynResult acc r) v (mem_addSynResult_of_mem r h)

theorem mem_foldl_addSynResult :
    ∀ (rs : List SynResult) (acc : List String) (v : String), v ∈ rs.foldl addSynResult acc →
      v ∈ acc ∨ ∃ r ∈ rs, ∃ s ∈ r.synonyms, hasSpace s = false ∧ v = lowerS s
  | [], _, _, h => Or.inl h
  | r :: rs, acc, v, h => by
    rcases mem_foldl_addSynResult rs (addSynResult acc r) v h with h1 | ⟨r2, hr2, s, hs, hsp, hv⟩
    · rcases mem_addSynResult h1 with h2 | ⟨s, hs, hsp, hv⟩
      · exact Or.inl h2
      · exact Or.inr ⟨r, List.mem_cons_self _ _, s, hs, hsp, hv⟩
    · exact Or.inr ⟨r2, List.mem_cons_of_mem _ hr2, s, hs, hsp, hv⟩

theorem mem_addWordSyns_of_mem {lookup : String → List SynResult} {acc : List String}
    {v : String} (word : String) (h : v ∈ acc) : v ∈ addWordSyns lookup acc word :=
  mem_foldl_addSynResult_of_mem (lookup word) acc v h

theorem mem_addWordSyns {lookup : String → List SynResult} {acc : List String} {v word : String}
    (h : v ∈ addWordSyns lookup acc word) :
    v ∈ acc ∨ ∃ r ∈ lookup word, ∃ s ∈ r.synonyms, hasSpace s = false ∧ v = lowerS s :=
  mem_foldl_addSynResult (lookup word) acc v h

theorem mem_foldl_addWordSyns_of_mem {lookup : String → List SynResult} :
    ∀ (ws : List String) (acc : List String) (v : String), v ∈ acc →
      v ∈ ws.foldl (addWordSyns lookup) acc
  | [], _, _, h => h
  | word :: ws, acc, v, h =>
    mem_foldl_addWordSyns_of_mem ws (addWordSyns lookup acc word) v
      (mem_addWordSyns_of_mem word h)

theorem mem_foldl_addWordSyns {lookup : String → List SynResult} :
    ∀ (ws : List String) (acc : List String) (v : String),
      v ∈ ws.foldl (addWordSyns lookup) acc →
      v ∈ acc ∨ ∃ word ∈ ws, ∃ r ∈ lookup word, ∃ s ∈ r.synonyms,
        hasSpace s = false ∧ v = lowerS s
  | [], _, _, h => Or.inl h
  | word :: ws, acc, v, h => by
    rcases mem_foldl_addWordSyns ws (addWordSyns lookup acc word) v h with
      h1 | ⟨word2, hw2, r, hr, s, hs, hsp, hv⟩
    · rcases mem_addWordSyns h1 with h2 | ⟨r, hr, s, hs, hsp, hv⟩
      · exact Or.inl h2
      · exact Or.inr ⟨word, List.mem_cons_self _ _, r, hr, s, hs, hsp, hv⟩
    · exact Or.inr ⟨word2, List.mem_cons_of_mem _ hw2, r, hr, s, hs, hsp, hv⟩

/-! ## Claim C7 -/

/-- C7: for every query and every behaviour of the lexical lookup, the
expanded word sequence of `expandQuery` contains every extracted original
(ASCII-letter) word of the query, and every member beyond the originals is
the lower-casing of a single-word synonym (one whose text contains no
space) returned by the lookup; a synonym containing a space is never
included. -/
theorem c7_expansion_contents (lookup : String → List SynResult) (query : String) :
    (∀ w ∈ extractWords query, w ∈ expandQueryWords lookup query) ∧
    (∀ w ∈ expandQueryWords lookup query,
      w ∈ extractWords query ∨
      ∃ word ∈ extractWords query, ∃ r ∈ lookup word, ∃ s ∈ r.synonyms,
        hasSpace s = false ∧ w = lowerS s) := by
  by_cases hq : query = ""
  · subst hq
    constructor
    · intro w hw
      rw [show extractWords "" = [] from rfl] at hw
      exact absurd hw (List.not_mem_nil w)
    · intro w hw
      rw [show expandQueryWords lookup "" = [] from rfl] at hw
      exact absurd hw (List.not_mem_nil w)
  · unfold expandQueryWords
    rw [if_neg hq]
    constructor
    · intro w hw
      exact mem_foldl_addWordSyns_of_mem (extractWords query) _ w
        (mem_foldl_addWord_of_mem_list (extractWords query) [] w hw)
    · intro w hw
      rcases mem_foldl_addWordSyns (extractWords query) _ w hw with
        h1 | ⟨word, hword, r, hr, s, hs, hsp, hv⟩
      · rcases mem_foldl_addWord (extractWords query) [] w h1 with h2 | h3
        · exact absurd h2 (List.not_mem_nil w)
        · exact Or.inl h3
      · exact Or.inr ⟨word, hword, r, hr, s, hs, hsp, hv⟩

/-- Witness for C7: the query `Hello hello!` extracts the word `hello`
(twice); with a lookup returning the synonym set `Hi`, `good day`, `Howdy`
for it, the expansion contains the original word, and the member `howdy` is
the lower-casing of the space-free synonym `Howdy` (while `good day` is
excluded). -/
theorem c7_expansion_contents_witness :
    "hello" ∈ expandQueryWords wLk7 "Hello hello!" ∧
    ("howdy" ∈ expandQueryWords wLk7 "Hello hello!" →
      "howdy" ∈ extractWords "Hello hello!" ∨
      ∃ word ∈ extractWords "Hello hello!", ∃ r ∈ wLk7 word, ∃ s ∈ r.synonyms,
        hasSpace s = false ∧ "howdy" = lowerS s) := by
  constructor
  · exact (c7_expansion_contents wLk7 "Hello hello!").1 "hello" (by decide)
  · exact fun h => (c7_expansion_contents wLk7 "Hello hello!").2 "howdy" h

/-! ## Claim C9 -/

/-- C9: if reading the corpus source fails during a reload, the reload
operation fails (responding with the 500 status) without modifying the
previously loaded corpus or either derived index: the FAQ list, the TF-IDF
document index and the fuzzy index all remain exactly as they were.  In the
source the `fs.readFileSync` throw happens before any assignment in
`loadFaqs`, and the `/reload` handler catches it. -/
theorem c9_reload_failure_preserves_state (e : String) (st : ServerState) :
    reloadHandler (Except.error e) st = (st, ReloadStatus.failed) ∧
    (reloadHandler (Except.error e) st).1.faqs = st.faqs ∧
    (reloadHandler (Except.error e) st).1.tfidfDocs = st.tfidfDocs ∧
    (reloadHandler (Except.error e) st).1.fuse = st.fuse :=
  ⟨rfl, rfl, rfl, rfl⟩

/-! ## Claim C10 -/

/-- C10: the consecutive-failure counter stays strictly below `FAIL_LIMIT`
after every completed `/ask` request: a single step always lands below the
limit (reset to 0, increment below the limit, or wrap to 0 on reaching it),
and hence every request sequence starting from 0 ends below it. -/
theorem c10_fail_counter_invariant :
    (∀ (f : Nat) (r : QueryResult), (askStep f r).1 < FAIL_LIMIT) ∧
    (∀ rs : List QueryResult, (runAsk 0 rs).1 < FAIL_LIMIT) :=
  ⟨askStep_fst_lt, fun rs => runAsk_fst_lt rs 0 (by decide)⟩

end BBLChat
